import Mathlib

/-
Verification of the session lifecycle controller of the voice-cooking recipe
app: the pair formed by src/hooks/useElevenLabsConversation.ts and
src/lib/sessionGuard.ts.

The code runs on a single-threaded cooperative scheduler (the JS event loop):
every hazard comes from interleaving of asynchronous continuations at await
boundaries, never from parallel execution.  We therefore embed the controller
as a small-step transition system.  The state `Sys` carries:

  - the guard fields of createSessionGuard (generation, teardownPromise slot,
    isConnecting) from sessionGuard.ts;
  - the hook state (status, transcript, userDisconnectedRef, cleanupTimerRef,
    and the mount bookkeeping of the unmount-cleanup effect) from
    useElevenLabsConversation.ts;
  - the multiset of in-flight asynchronous continuations: connect bodies
    (`connects`, one entry per connect() invocation past the overlap check,
    recording which await boundary it is suspended at) and disconnect bodies
    (`disconnects`, recording the teardown promise id each awaits);
  - observation counters: capability starts (startSession invocations),
    capability terminations (endSession invocations), transcript clears, and
    microphone requests (Step C of the spec).

Each action of `Act` is one atomic scheduler slice of the source: the
synchronous prefix of connect()/disconnect(), the resumption of a suspended
continuation at one await boundary together with the synchronous code that
runs immediately after it, a mount / unmount / cleanup-timer event, or one
SDK callback (onConnect / onDisconnect / onError / onMessage).  Making each
checkpoint its own step only adds interleavings relative to the event loop,
so universal statements proved here also hold of the source; the concrete
counterexample traces below follow schedules the event loop can produce.
-/

set_option autoImplicit false

namespace TtsRecipe

/- Connection status of the hook, from the ConversationStatus union type. -/
inductive ConversationStatus : Type
  | idle
  | connecting
  | connected
  | disconnected
  | error
deriving DecidableEq, Repr

/- Speaker of a transcript entry, from TranscriptEntry.role. -/
inductive Role : Type
  | agent
  | user
deriving DecidableEq, Repr

/- TranscriptEntry, from the hook: role, text, timestamp. -/
structure TranscriptEntry : Type where
  role : Role
  text : String
  timestamp : Nat
deriving DecidableEq, Repr

/-
Suspension point of an in-flight connect() body.  Each constructor is one
await boundary of the source (or a generation checkpoint that runs right
after one); the argument `gen` is the generation minted at line 137,
carried by every phase after the mint.
  - waitTeardown pinned : suspended at `await guard.waitForTeardown()`
                   (line 134).  waitForTeardown (sessionGuard.ts lines 73-78)
                   reads the teardownPromise slot once, synchronously, when
                   connect() reaches Step A; `pinned` is that read.  The body
                   resumes when the pinned promise (if any) settles — the
                   slot is not consulted again — and on resume the slot is
                   nulled exactly when a promise was pinned, clobbering
                   whatever the slot holds at that moment.
  - mic g        : suspended at `await navigator.mediaDevices.getUserMedia`
                   plus the best-effort AudioContext unlock (lines 140-152).
  - check4 g     : about to run the generation checkpoint of lines 155-158.
  - fetchTok g   : suspended at the signed-url fetch (lines 161-163).
  - check6 g     : about to run the generation checkpoint of lines 166-169.
  - startS g     : suspended at `await startSession` (line 172); a
                   capability start is in flight exactly in this phase.
-/
inductive CPhase : Type
  | waitTeardown (pinned : Option Nat)
  | mic (gen : Nat)
  | check4 (gen : Nat)
  | fetchTok (gen : Nat)
  | check6 (gen : Nat)
  | startS (gen : Nat)
deriving DecidableEq, Repr

/- The generation carried by a connect phase, none before the mint. -/
def CPhase.genOf : CPhase → Option Nat
  | .waitTeardown _ => none
  | .mic g => some g
  | .check4 g => some g
  | .fetchTok g => some g
  | .check6 g => some g
  | .startS g => some g

/- True exactly on the pre-mint phase. -/
def CPhase.isWaitTd : CPhase → Bool
  | .waitTeardown _ => true
  | _ => false

/- Complete state of the controller plus in-flight continuations. -/
structure Sys : Type where
  /- sessionGuard.ts `generation` -/
  generation : Nat
  /- sessionGuard.ts `teardownPromise` slot: id of the stored promise -/
  teardownSlot : Option Nat
  /- ids of teardown promises not yet settled -/
  tdPending : List Nat
  /- fresh id source for teardown promises -/
  nextTid : Nat
  /- sessionGuard.ts `isConnecting` -/
  isConnecting : Bool
  /- hook useState `status` -/
  status : ConversationStatus
  /- hook useState `transcript` -/
  transcript : List TranscriptEntry
  /- hook `userDisconnectedRef` -/
  userDisconnected : Bool
  /- whether the component is currently mounted -/
  mounted : Bool
  /- `genAtMount` recorded by the cleanup effect body at mount (line 218) -/
  genAtMount : Nat
  /- hook `cleanupTimerRef`: the generation captured by the pending timer -/
  cleanupTimer : Option Nat
  /- in-flight connect() bodies, by suspension phase -/
  connects : List CPhase
  /- in-flight disconnect() bodies, each awaiting its teardown promise id -/
  disconnects : List Nat
  /- number of startSession invocations so far -/
  startCount : Nat
  /- number of endSession invocations so far -/
  terminateCount : Nat
  /- number of setTranscript-to-empty resets so far -/
  clearCount : Nat
  /- number of getUserMedia microphone requests so far (Step C) -/
  micCount : Nat
deriving DecidableEq, Repr

/- Initial state: fresh guard, idle hook, component not yet mounted. -/
def initSys : Sys where
  generation := 0
  teardownSlot := none
  tdPending := []
  nextTid := 0
  isConnecting := false
  status := .idle
  transcript := []
  userDisconnected := false
  mounted := false
  genAtMount := 0
  cleanupTimer := none
  connects := []
  disconnects := []
  startCount := 0
  terminateCount := 0
  clearCount := 0
  micCount := 0

/- One scheduler slice, see the head comment for the correspondence. -/
inductive Act : Type
  | mountE
  | unmountE
  | timerFire
  | callConnect
  | stepConn (i : Nat) (ok : Bool)
  | callDisconnect
  | settleTd (tid : Nat) (threw : Bool)
  | discResume (i : Nat)
  | evConnect
  | evDisconnect
  | evError
  | evMessage (source text : String) (now : Nat)
deriving DecidableEq, Repr

/-
The mount body of the cleanup effect (lines 211-218): cancel any pending
cleanup timer, record the current generation for the cleanup closure.
-/
def doMount (s : Sys) : Option Sys :=
  if s.mounted then none
  else some { s with mounted := true, cleanupTimer := none,
                     genAtMount := s.generation }

/-
The effect cleanup at unmount (lines 220-228): schedule the delayed
teardown; the scheduled closure captured `genAtMount` from the effect body,
i.e. the generation current at MOUNT time.
-/
def doUnmount (s : Sys) : Option Sys :=
  if s.mounted then
    some { s with mounted := false, cleanupTimer := some s.genAtMount }
  else none

/-
The delayed-cleanup timer fires (lines 222-227): endSession only if the
current generation still equals the captured one; the returned promise is
discarded with an ignoring catch.
-/
def doTimerFire (s : Sys) : Option Sys :=
  match s.cleanupTimer with
  | none => none
  | some gm =>
      if s.generation = gm then
        some { s with cleanupTimer := none,
                      terminateCount := s.terminateCount + 1 }
      else
        some { s with cleanupTimer := none }

/-
The synchronous prefix of connect() (lines 115-128): cancel any pending
cleanup timer; if isConnecting, return at once (no other effect); otherwise
set isConnecting, clear the user-disconnected flag, set status connecting,
reset the transcript, and suspend at waitForTeardown.
-/
def doCallConnect (s : Sys) : Sys :=
  if s.isConnecting then { s with cleanupTimer := none }
  else
    { s with cleanupTimer := none
             isConnecting := true
             userDisconnected := false
             status := .connecting
             transcript := []
             clearCount := s.clearCount + 1
             connects := s.connects ++ [CPhase.waitTeardown s.teardownSlot] }

/- Bail branch of a generation checkpoint (lines 155-158 and 166-169). -/
def bailStale (s : Sys) (i : Nat) : Sys :=
  { s with isConnecting := false, connects := s.connects.eraseIdx i }

/- The catch block of connect() (lines 175-179). -/
def failConn (s : Sys) (i : Nat) : Sys :=
  { s with isConnecting := false, status := .error,
           connects := s.connects.eraseIdx i }

/-
Resume the connect body at index `i` for one slice; `ok` is the outcome of
the await being resumed (true = resolved, false = rejected into the catch).
  - waitTeardown resumes only when the promise pinned at Step A (if any)
    has settled; the guard slot is not consulted at resume time.  The resume
    nulls the slot exactly when a promise was pinned, mints the next
    generation and invokes getUserMedia (entering phase mic, counting the
    Step C request).
  - mic resolves into the checkpoint phase, or rejects into the catch.
  - check4 / check6 compare the guard generation with the minted one:
    on mismatch the attempt bails silently (isConnecting := false, nothing
    else touched); check6 passing invokes startSession (phase startS).
  - startS resolves clearing isConnecting, or rejects into the catch.
-/
def doStepConn (s : Sys) (i : Nat) (ok : Bool) : Option Sys :=
  match s.connects[i]? with
  | none => none
  | some (CPhase.waitTeardown pinned) =>
      match pinned with
      | some t =>
          if t ∈ s.tdPending then none
          else
            some { s with teardownSlot := none
                          generation := s.generation + 1
                          micCount := s.micCount + 1
                          connects :=
                            s.connects.set i (CPhase.mic (s.generation + 1)) }
      | none =>
          some { s with generation := s.generation + 1
                        micCount := s.micCount + 1
                        connects :=
                          s.connects.set i (CPhase.mic (s.generation + 1)) }
  | some (CPhase.mic g) =>
      if ok then some { s with connects := s.connects.set i (CPhase.check4 g) }
      else some (failConn s i)
  | some (CPhase.check4 g) =>
      if s.generation = g then
        some { s with connects := s.connects.set i (CPhase.fetchTok g) }
      else some (bailStale s i)
  | some (CPhase.fetchTok g) =>
      if ok then some { s with connects := s.connects.set i (CPhase.check6 g) }
      else some (failConn s i)
  | some (CPhase.check6 g) =>
      if s.generation = g then
        some { s with startCount := s.startCount + 1
                      connects := s.connects.set i (CPhase.startS g) }
      else some (bailStale s i)
  | some (CPhase.startS _) =>
      if ok then
        some { s with isConnecting := false,
                      connects := s.connects.eraseIdx i }
      else some (failConn s i)

/-
The synchronous prefix of disconnect() (lines 185-195): set the
user-disconnected flag, invoke endSession inside a fresh wrapper promise
(counted as a termination), store it in the guard slot, and suspend
awaiting it.
-/
def doCallDisconnect (s : Sys) : Sys :=
  { s with userDisconnected := true
           terminateCount := s.terminateCount + 1
           tdPending := s.tdPending ++ [s.nextTid]
           teardownSlot := some s.nextTid
           disconnects := s.disconnects ++ [s.nextTid]
           nextTid := s.nextTid + 1 }

/-
The endSession call underlying teardown promise `tid` settles; whether it
resolved or threw (`threw`) is irrelevant because the wrapper of lines
187-193 catches and swallows the rejection, so the wrapper promise fulfills
either way.
-/
def doSettle (s : Sys) (tid : Nat) (_threw : Bool) : Option Sys :=
  if tid ∈ s.tdPending then
    some { s with tdPending := s.tdPending.filter (fun t => decide (t ≠ tid)) }
  else none

/-
The disconnect body at index `i` resumes after its awaited teardown promise
settled (line 195-196): set status disconnected, finish.
-/
def doDiscResume (s : Sys) (i : Nat) : Option Sys :=
  match s.disconnects[i]? with
  | none => none
  | some tid =>
      if tid ∈ s.tdPending then none
      else
        some { s with status := .disconnected,
                      disconnects := s.disconnects.eraseIdx i }

/- onConnect callback (lines 79-81). -/
def doEvConnect (s : Sys) : Sys :=
  { s with status := .connected }

/- onDisconnect callback (lines 82-88). -/
def doEvDisconnect (s : Sys) : Sys :=
  if s.userDisconnected then { s with status := .disconnected } else s

/- onError callback (lines 89-96). -/
def doEvError (s : Sys) : Sys :=
  if s.isConnecting then s else { s with status := .error }

/- Entry built by the onMessage callback (lines 97-103). -/
def mkEntry (source text : String) (now : Nat) : TranscriptEntry :=
  { role := if source = "ai" then .agent else .user
    text := text
    timestamp := now }

/- onMessage callback: append the entry to the transcript. -/
def doEvMessage (s : Sys) (source text : String) (now : Nat) : Sys :=
  { s with transcript := s.transcript ++ [mkEntry source text now] }

/- One step of the transition system; none when the slice is not enabled. -/
def step : Act → Sys → Option Sys
  | .mountE, s => doMount s
  | .unmountE, s => doUnmount s
  | .timerFire, s => doTimerFire s
  | .callConnect, s => some (doCallConnect s)
  | .stepConn i ok, s => doStepConn s i ok
  | .callDisconnect, s => some (doCallDisconnect s)
  | .settleTd tid threw, s => doSettle s tid threw
  | .discResume i, s => doDiscResume s i
  | .evConnect, s => some (doEvConnect s)
  | .evDisconnect, s => some (doEvDisconnect s)
  | .evError, s => some (doEvError s)
  | .evMessage src txt now, s => doEvMessage s src txt now |> some

/- Run a list of slices in order; none if any slice is not enabled. -/
def run : List Act → Sys → Option Sys
  | [], s => some s
  | a :: rest, s =>
      match step a s with
      | none => none
      | some s' => run rest s'

/- States reachable from the initial state by enabled slices. -/
inductive Reachable : Sys → Prop
  | init : Reachable initSys
  | next {s s' : Sys} {a : Act} :
      Reachable s → step a s = some s' → Reachable s'

/-
A list of length at most one that has an element at index i is the
singleton of that element, and i is 0.  Used to collapse the in-flight
connect list once the single-flight invariant is available.
-/
lemma short_list_collapse {α : Type} {l : List α} {i : Nat} {x : α}
    (hlen : l.length ≤ 1) (hget : l[i]? = some x) : l = [x] ∧ i = 0 := by
  match l, i with
  | [], i => simp at hget
  | [a], 0 => simp_all
  | [a], i + 1 => simp at hget
  | a :: b :: t, i => simp at hlen

/-
Effect of List.eraseIdx on a list known to hold exactly the indexed
element: the result is empty.
-/
lemma erase_of_short {s : Sys} {i : Nat} {ph : CPhase}
    (h1 : s.connects.length ≤ 1) (hg : s.connects[i]? = some ph) :
    s.connects.eraseIdx i = [] := by
  obtain ⟨hl, hi⟩ := short_list_collapse h1 hg
  subst hi; rw [hl]; rfl

/-
Replacing one in-flight phase keeps the connect list short.
-/
lemma set_of_short {s : Sys} {i : Nat}
    (h1 : s.connects.length ≤ 1) (q : CPhase) :
    (s.connects.set i q).length ≤ 1 := by
  rw [List.length_set]; exact h1

/-
A connect list with an element at some index is nonempty.
-/
lemma nonempty_of_get {s : Sys} {i : Nat} {ph : CPhase}
    (hg : s.connects[i]? = some ph) : s.connects ≠ [] := by
  intro hnil; rw [hnil] at hg; simp at hg

/-
Single-flight invariant: at most one connect() body is ever in flight, and
while one is, the guard flag isConnecting is set.  One step of preservation.
-/
lemma inv1_step {s s' : Sys} {a : Act}
    (h1 : s.connects.length ≤ 1)
    (h2 : s.connects ≠ [] → s.isConnecting = true)
    (h : step a s = some s') :
    s'.connects.length ≤ 1 ∧ (s'.connects ≠ [] → s'.isConnecting = true) := by
  cases a with
  | mountE =>
      replace h : doMount s = some s' := h
      unfold doMount at h
      split at h
      · exact absurd h (by simp)
      · rw [Option.some.injEq] at h; subst h; exact ⟨h1, h2⟩
  | unmountE =>
      replace h : doUnmount s = some s' := h
      unfold doUnmount at h
      split at h
      · rw [Option.some.injEq] at h; subst h; exact ⟨h1, h2⟩
      · exact absurd h (by simp)
  | timerFire =>
      replace h : doTimerFire s = some s' := h
      unfold doTimerFire at h
      split at h
      · exact absurd h (by simp)
      · split at h <;> (rw [Option.some.injEq] at h; subst h; exact ⟨h1, h2⟩)
  | callConnect =>
      replace h : doCallConnect s = s' := by
        have := h; rw [step, Option.some.injEq] at this; exact this
      unfold doCallConnect at h
      split at h <;> subst h
      · exact ⟨h1, fun _ => by assumption⟩
      · rename_i hc
        have hnil : s.connects = [] := by
          by_contra hne
          exact hc (h2 hne)
        refine ⟨?_, fun _ => rfl⟩
        show (s.connects ++ [CPhase.waitTeardown s.teardownSlot]).length ≤ 1
        rw [hnil]; rfl
  | stepConn i ok =>
      replace h : doStepConn s i ok = some s' := h
      unfold doStepConn at h
      split at h
      · exact absurd h (by simp)
      · -- waitTeardown arm
        rename_i pinned hg
        split at h
        · -- a teardown promise was pinned at Step A
          split at h
          · exact absurd h (by simp)
          · rw [Option.some.injEq] at h; subst h
            exact ⟨set_of_short h1 _, fun _ => h2 (nonempty_of_get hg)⟩
        · rw [Option.some.injEq] at h; subst h
          exact ⟨set_of_short h1 _, fun _ => h2 (nonempty_of_get hg)⟩
      · -- mic arm
        rename_i g hg
        split at h <;> (rw [Option.some.injEq] at h; subst h)
        · exact ⟨set_of_short h1 _, fun _ => h2 (nonempty_of_get hg)⟩
        · have he := erase_of_short h1 hg
          exact ⟨by show (s.connects.eraseIdx i).length ≤ 1; rw [he]; simp,
                 fun hne => absurd he hne⟩
      · -- check4 arm
        rename_i g hg
        split at h <;> (rw [Option.some.injEq] at h; subst h)
        · exact ⟨set_of_short h1 _, fun _ => h2 (nonempty_of_get hg)⟩
        · have he := erase_of_short h1 hg
          exact ⟨by show (s.connects.eraseIdx i).length ≤ 1; rw [he]; simp,
                 fun hne => absurd he hne⟩
      · -- fetchTok arm
        rename_i g hg
        split at h <;> (rw [Option.some.injEq] at h; subst h)
        · exact ⟨set_of_short h1 _, fun _ => h2 (nonempty_of_get hg)⟩
        · have he := erase_of_short h1 hg
          exact ⟨by show (s.connects.eraseIdx i).length ≤ 1; rw [he]; simp,
                 fun hne => absurd he hne⟩
      · -- check6 arm
        rename_i g hg
        split at h <;> (rw [Option.some.injEq] at h; subst h)
        · exact ⟨set_of_short h1 _, fun _ => h2 (nonempty_of_get hg)⟩
        · have he := erase_of_short h1 hg
          exact ⟨by show (s.connects.eraseIdx i).length ≤ 1; rw [he]; simp,
                 fun hne => absurd he hne⟩
      · -- startS arm
        rename_i g hg
        split at h <;> (rw [Option.some.injEq] at h; subst h)
        · have he := erase_of_short h1 hg
          exact ⟨by show (s.connects.eraseIdx i).length ≤ 1; rw [he]; simp,
                 fun hne => absurd he hne⟩
        · have he := erase_of_short h1 hg
          exact ⟨by show (s.connects.eraseIdx i).length ≤ 1; rw [he]; simp,
                 fun hne => absurd he hne⟩
  | callDisconnect =>
      replace h : doCallDisconnect s = s' := by
        have := h; rw [step, Option.some.injEq] at this; exact this
      subst h; exact ⟨h1, h2⟩
  | settleTd tid threw =>
      replace h : doSettle s tid threw = some s' := h
      unfold doSettle at h
      split at h
      · rw [Option.some.injEq] at h; subst h; exact ⟨h1, h2⟩
      · exact absurd h (by simp)
  | discResume i =>
      replace h : doDiscResume s i = some s' := h
      unfold doDiscResume at h
      split at h
      · exact absurd h (by simp)
      · split at h
        · exact absurd h (by simp)
        · rw [Option.some.injEq] at h; subst h; exact ⟨h1, h2⟩
  | evConnect =>
      replace h : doEvConnect s = s' := by
        have := h; rw [step, Option.some.injEq] at this; exact this
      subst h; exact ⟨h1, h2⟩
  | evDisconnect =>
      replace h : doEvDisconnect s = s' := by
        have := h; rw [step, Option.some.injEq] at this; exact this
      unfold doEvDisconnect at h
      split at h <;> (subst h; exact ⟨h1, h2⟩)
  | evError =>
      replace h : doEvError s = s' := by
        have := h; rw [step, Option.some.injEq] at this; exact this
      unfold doEvError at h
      split at h <;> (subst h; exact ⟨h1, h2⟩)
  | evMessage src txt now =>
      replace h : doEvMessage s src txt now = s' := by
        have := h; rw [step, Option.some.injEq] at this; exact this
      subst h; exact ⟨h1, h2⟩

/-
Generation consistency: every in-flight connect body that has already minted
its generation holds exactly the guard's current generation.  Consequently a
stale generation (one differing from the guard's) is never attached to any
in-flight continuation in any reachable state.  One step of preservation;
needs the single-flight length bound of the pre-state.
-/
lemma inv2_step {s s' : Sys} {a : Act}
    (h1 : s.connects.length ≤ 1)
    (hs : ∀ p ∈ s.connects, ∀ g, p.genOf = some g → g = s.generation)
    (h : step a s = some s') :
    ∀ p ∈ s'.connects, ∀ g, p.genOf = some g → g = s'.generation := by
  cases a with
  | mountE =>
      replace h : doMount s = some s' := h
      unfold doMount at h
      split at h
      · exact absurd h (by simp)
      · rw [Option.some.injEq] at h; subst h; exact hs
  | unmountE =>
      replace h : doUnmount s = some s' := h
      unfold doUnmount at h
      split at h
      · rw [Option.some.injEq] at h; subst h; exact hs
      · exact absurd h (by simp)
  | timerFire =>
      replace h : doTimerFire s = some s' := h
      unfold doTimerFire at h
      split at h
      · exact absurd h (by simp)
      · split at h <;> (rw [Option.some.injEq] at h; subst h; exact hs)
  | callConnect =>
      replace h : doCallConnect s = s' := by
        have := h; rw [step, Option.some.injEq] at this; exact this
      unfold doCallConnect at h
      split at h <;> subst h
      · exact hs
      · intro p hp g hgof
        rcases List.mem_append.mp hp with hp | hp
        · exact hs p hp g hgof
        · rw [List.mem_singleton] at hp; subst hp
          exact absurd hgof (by simp [CPhase.genOf])
  | stepConn i ok =>
      replace h : doStepConn s i ok = some s' := h
      unfold doStepConn at h
      split at h
      · exact absurd h (by simp)
      · -- waitTeardown arm: the mint
        rename_i pinned hg
        obtain ⟨hl, hi⟩ := short_list_collapse h1 hg
        subst hi
        have hset : s.connects.set 0 (CPhase.mic (s.generation + 1))
            = [CPhase.mic (s.generation + 1)] := by rw [hl]; rfl
        split at h
        · split at h
          · exact absurd h (by simp)
          · rw [Option.some.injEq] at h; subst h
            intro p hp g hgof
            rw [hset, List.mem_singleton] at hp; subst hp
            simp [CPhase.genOf] at hgof
            show g = s.generation + 1
            omega
        · rw [Option.some.injEq] at h; subst h
          intro p hp g hgof
          rw [hset, List.mem_singleton] at hp; subst hp
          simp [CPhase.genOf] at hgof
          show g = s.generation + 1
          omega
      · -- mic arm
        rename_i g0 hg
        obtain ⟨hl, hi⟩ := short_list_collapse h1 hg
        subst hi
        have hg0 : g0 = s.generation :=
          hs (CPhase.mic g0) (by rw [hl]; simp) g0 rfl
        split at h <;> (rw [Option.some.injEq] at h; subst h)
        · intro p hp g hgof
          rw [show s.connects.set 0 (CPhase.check4 g0) = [CPhase.check4 g0]
                from by rw [hl]; rfl, List.mem_singleton] at hp
          subst hp
          simp [CPhase.genOf] at hgof
          show g = s.generation
          omega
        · intro p hp
          rw [show (failConn s 0).connects = [] from by
                show s.connects.eraseIdx 0 = []; rw [hl]; rfl] at hp
          simp at hp
      · -- check4 arm
        rename_i g0 hg
        obtain ⟨hl, hi⟩ := short_list_collapse h1 hg
        subst hi
        have hg0 : g0 = s.generation :=
          hs (CPhase.check4 g0) (by rw [hl]; simp) g0 rfl
        split at h <;> (rw [Option.some.injEq] at h; subst h)
        · intro p hp g hgof
          rw [show s.connects.set 0 (CPhase.fetchTok g0) = [CPhase.fetchTok g0]
                from by rw [hl]; rfl, List.mem_singleton] at hp
          subst hp
          simp [CPhase.genOf] at hgof
          show g = s.generation
          omega
        · intro p hp
          rw [show (bailStale s 0).connects = [] from by
                show s.connects.eraseIdx 0 = []; rw [hl]; rfl] at hp
          simp at hp
      · -- fetchTok arm
        rename_i g0 hg
        obtain ⟨hl, hi⟩ := short_list_collapse h1 hg
        subst hi
        have hg0 : g0 = s.generation :=
          hs (CPhase.fetchTok g0) (by rw [hl]; simp) g0 rfl
        split at h <;> (rw [Option.some.injEq] at h; subst h)
        · intro p hp g hgof
          rw [show s.connects.set 0 (CPhase.check6 g0) = [CPhase.check6 g0]
                from by rw [hl]; rfl, List.mem_singleton] at hp
          subst hp
          simp [CPhase.genOf] at hgof
          show g = s.generation
          omega
        · intro p hp
          rw [show (failConn s 0).connects = [] from by
                show s.connects.eraseIdx 0 = []; rw [hl]; rfl] at hp
          simp at hp
      · -- check6 arm
        rename_i g0 hg
        obtain ⟨hl, hi⟩ := short_list_collapse h1 hg
        subst hi
        have hg0 : g0 = s.generation :=
          hs (CPhase.check6 g0) (by rw [hl]; simp) g0 rfl
        split at h <;> (rw [Option.some.injEq] at h; subst h)
        · intro p hp g hgof
          rw [show s.connects.set 0 (CPhase.startS g0) = [CPhase.startS g0]
                from by rw [hl]; rfl, List.mem_singleton] at hp
          subst hp
          simp [CPhase.genOf] at hgof
          show g = s.generation
          omega
        · intro p hp
          rw [show (bailStale s 0).connects = [] from by
                show s.connects.eraseIdx 0 = []; rw [hl]; rfl] at hp
          simp at hp
      · -- startS arm
        rename_i g0 hg
        obtain ⟨hl, hi⟩ := short_list_collapse h1 hg
        subst hi
        split at h <;> (rw [Option.some.injEq] at h; subst h)
        · intro p hp
          rw [show s.connects.eraseIdx 0 = [] from by rw [hl]; rfl] at hp
          simp at hp
        · intro p hp
          rw [show (failConn s 0).connects = [] from by
                show s.connects.eraseIdx 0 = []; rw [hl]; rfl] at hp
          simp at hp
  | callDisconnect =>
      replace h : doCallDisconnect s = s' := by
        have := h; rw [step, Option.some.injEq] at this; exact this
      subst h; exact hs
  | settleTd tid threw =>
      replace h : doSettle s tid threw = some s' := h
      unfold doSettle at h
      split at h
      · rw [Option.some.injEq] at h; subst h; exact hs
      · exact absurd h (by simp)
  | discResume i =>
      replace h : doDiscResume s i = some s' := h
      unfold doDiscResume at h
      split at h
      · exact absurd h (by simp)
      · split at h
        · exact absurd h (by simp)
        · rw [Option.some.injEq] at h; subst h; exact hs
  | evConnect =>
      replace h : doEvConnect s = s' := by
        have := h; rw [step, Option.some.injEq] at this; exact this
      subst h; exact hs
  | evDisconnect =>
      replace h : doEvDisconnect s = s' := by
        have := h; rw [step, Option.some.injEq] at this; exact this
      unfold doEvDisconnect at h
      split at h <;> (subst h; exact hs)
  | evError =>
      replace h : doEvError s = s' := by
        have := h; rw [step, Option.some.injEq] at this; exact this
      unfold doEvError at h
      split at h <;> (subst h; exact hs)
  | evMessage src txt now =>
      replace h : doEvMessage s src txt now = s' := by
        have := h; rw [step, Option.some.injEq] at this; exact this
      subst h; exact hs

/- Single-flight invariant over all reachable states. -/
lemma inv1_reachable (s : Sys) (h : Reachable s) :
    s.connects.length ≤ 1 ∧ (s.connects ≠ [] → s.isConnecting = true) := by
  induction h with
  | init => exact ⟨by decide, fun hne => absurd rfl hne⟩
  | next _ hstep ih => exact inv1_step ih.1 ih.2 hstep

/- Generation consistency over all reachable states. -/
lemma inv2_reachable (s : Sys) (h : Reachable s) :
    ∀ p ∈ s.connects, ∀ g, p.genOf = some g → g = s.generation := by
  induction h with
  | init => intro p hp; simp [initSys] at hp
  | next hr hstep ih => exact inv2_step (inv1_reachable _ hr).1 ih hstep

/-
Transcript-clear accounting: the number of transcript resets performed so
far equals the number of microphone requests (Step C) plus the number of
in-flight connect bodies that have not yet reached Step C.  One step of
preservation; needs the single-flight length bound of the pre-state.
-/
lemma inv3_step {s s' : Sys} {a : Act}
    (h1 : s.connects.length ≤ 1)
    (hs : s.clearCount = s.micCount + s.connects.countP CPhase.isWaitTd)
    (h : step a s = some s') :
    s'.clearCount = s'.micCount + s'.connects.countP CPhase.isWaitTd := by
  cases a with
  | mountE =>
      replace h : doMount s = some s' := h
      unfold doMount at h
      split at h
      · exact absurd h (by simp)
      · rw [Option.some.injEq] at h; subst h; exact hs
  | unmountE =>
      replace h : doUnmount s = some s' := h
      unfold doUnmount at h
      split at h
      · rw [Option.some.injEq] at h; subst h; exact hs
      · exact absurd h (by simp)
  | timerFire =>
      replace h : doTimerFire s = some s' := h
      unfold doTimerFire at h
      split at h
      · exact absurd h (by simp)
      · split at h <;> (rw [Option.some.injEq] at h; subst h; exact hs)
  | callConnect =>
      replace h : doCallConnect s = s' := by
        have := h; rw [step, Option.some.injEq] at this; exact this
      unfold doCallConnect at h
      split at h <;> subst h
      · exact hs
      · show s.clearCount + 1
          = s.micCount
            + (s.connects ++ [CPhase.waitTeardown s.teardownSlot]).countP
                CPhase.isWaitTd
        have hone : ([CPhase.waitTeardown s.teardownSlot] : List CPhase).countP
            CPhase.isWaitTd = 1 := rfl
        rw [List.countP_append, hone]
        omega
  | stepConn i ok =>
      replace h : doStepConn s i ok = some s' := h
      unfold doStepConn at h
      split at h
      · exact absurd h (by simp)
      · -- waitTeardown arm: Step C is reached, one fewer pre-mic body
        rename_i pinned hg
        obtain ⟨hl, hi⟩ := short_list_collapse h1 hg
        subst hi
        rw [hl] at hs
        have hbefore : ([CPhase.waitTeardown pinned] : List CPhase).countP
            CPhase.isWaitTd = 1 := rfl
        rw [hbefore] at hs
        have hgoal : (s.connects.set 0 (CPhase.mic (s.generation + 1))).countP
            CPhase.isWaitTd = 0 := by rw [hl]; rfl
        split at h
        · split at h
          · exact absurd h (by simp)
          · rw [Option.some.injEq] at h; subst h
            show s.clearCount = s.micCount + 1
              + (s.connects.set 0 (CPhase.mic (s.generation + 1))).countP
                  CPhase.isWaitTd
            rw [hgoal]; omega
        · rw [Option.some.injEq] at h; subst h
          show s.clearCount = s.micCount + 1
            + (s.connects.set 0 (CPhase.mic (s.generation + 1))).countP
                CPhase.isWaitTd
          rw [hgoal]; omega
      · -- mic arm
        rename_i g0 hg
        obtain ⟨hl, hi⟩ := short_list_collapse h1 hg
        subst hi
        rw [hl] at hs
        have hbefore : ([CPhase.mic g0] : List CPhase).countP CPhase.isWaitTd
            = 0 := rfl
        rw [hbefore] at hs
        split at h <;> (rw [Option.some.injEq] at h; subst h)
        · show s.clearCount = s.micCount
            + (s.connects.set 0 (CPhase.check4 g0)).countP CPhase.isWaitTd
          rw [show (s.connects.set 0 (CPhase.check4 g0)).countP CPhase.isWaitTd
                = 0 from by rw [hl]; rfl]
          omega
        · show s.clearCount = s.micCount
            + (s.connects.eraseIdx 0).countP CPhase.isWaitTd
          rw [show (s.connects.eraseIdx 0).countP CPhase.isWaitTd = 0
                from by rw [hl]; rfl]
          omega
      · -- check4 arm
        rename_i g0 hg
        obtain ⟨hl, hi⟩ := short_list_collapse h1 hg
        subst hi
        rw [hl] at hs
        have hbefore : ([CPhase.check4 g0] : List CPhase).countP
            CPhase.isWaitTd = 0 := rfl
        rw [hbefore] at hs
        split at h <;> (rw [Option.some.injEq] at h; subst h)
        · show s.clearCount = s.micCount
            + (s.connects.set 0 (CPhase.fetchTok g0)).countP CPhase.isWaitTd
          rw [show (s.connects.set 0 (CPhase.fetchTok g0)).countP
                CPhase.isWaitTd = 0 from by rw [hl]; rfl]
          omega
        · show s.clearCount = s.micCount
            + (s.connects.eraseIdx 0).countP CPhase.isWaitTd
          rw [show (s.connects.eraseIdx 0).countP CPhase.isWaitTd = 0
                from by rw [hl]; rfl]
          omega
      · -- fetchTok arm
        rename_i g0 hg
        obtain ⟨hl, hi⟩ := short_list_collapse h1 hg
        subst hi
        rw [hl] at hs
        have hbefore : ([CPhase.fetchTok g0] : List CPhase).countP
            CPhase.isWaitTd = 0 := rfl
        rw [hbefore] at hs
        split at h <;> (rw [Option.some.injEq] at h; subst h)
        · show s.clearCount = s.micCount
            + (s.connects.set 0 (CPhase.check6 g0)).countP CPhase.isWaitTd
          rw [show (s.connects.set 0 (CPhase.check6 g0)).countP
                CPhase.isWaitTd = 0 from by rw [hl]; rfl]
          omega
        · show s.clearCount = s.micCount
            + (s.connects.eraseIdx 0).countP CPhase.isWaitTd
          rw [show (s.connects.eraseIdx 0).countP CPhase.isWaitTd = 0
                from by rw [hl]; rfl]
          omega
      · -- check6 arm
        rename_i g0 hg
        obtain ⟨hl, hi⟩ := short_list_collapse h1 hg
        subst hi
        rw [hl] at hs
        have hbefore : ([CPhase.check6 g0] : List CPhase).countP
            CPhase.isWaitTd = 0 := rfl
        rw [hbefore] at hs
        split at h <;> (rw [Option.some.injEq] at h; subst h)
        · show s.clearCount = s.micCount
            + (s.connects.set 0 (CPhase.startS g0)).countP CPhase.isWaitTd
          rw [show (s.connects.set 0 (CPhase.startS g0)).countP
                CPhase.isWaitTd = 0 from by rw [hl]; rfl]
          omega
        · show s.clearCount = s.micCount
            + (s.connects.eraseIdx 0).countP CPhase.isWaitTd
          rw [show (s.connects.eraseIdx 0).countP CPhase.isWaitTd = 0
                from by rw [hl]; rfl]
          omega
      · -- startS arm
        rename_i g0 hg
        obtain ⟨hl, hi⟩ := short_list_collapse h1 hg
        subst hi
        rw [hl] at hs
        have hbefore : ([CPhase.startS g0] : List CPhase).countP
            CPhase.isWaitTd = 0 := rfl
        rw [hbefore] at hs
        split at h <;> (rw [Option.some.injEq] at h; subst h) <;>
          (show s.clearCount = s.micCount
              + (s.connects.eraseIdx 0).countP CPhase.isWaitTd
           rw [show (s.connects.eraseIdx 0).countP CPhase.isWaitTd = 0
                 from by rw [hl]; rfl]
           omega)
  | callDisconnect =>
      replace h : doCallDisconnect s = s' := by
        have := h; rw [step, Option.some.injEq] at this; exact this
      subst h; exact hs
  | settleTd tid threw =>
      replace h : doSettle s tid threw = some s' := h
      unfold doSettle at h
      split at h
      · rw [Option.some.injEq] at h; subst h; exact hs
      · exact absurd h (by simp)
  | discResume i =>
      replace h : doDiscResume s i = some s' := h
      unfold doDiscResume at h
      split at h
      · exact absurd h (by simp)
      · split at h
        · exact absurd h (by simp)
        · rw [Option.some.injEq] at h; subst h; exact hs
  | evConnect =>
      replace h : doEvConnect s = s' := by
        have := h; rw [step, Option.some.injEq] at this; exact this
      subst h; exact hs
  | evDisconnect =>
      replace h : doEvDisconnect s = s' := by
        have := h; rw [step, Option.some.injEq] at this; exact this
      unfold doEvDisconnect at h
      split at h <;> (subst h; exact hs)
  | evError =>
      replace h : doEvError s = s' := by
        have := h; rw [step, Option.some.injEq] at this; exact this
      unfold doEvError at h
      split at h <;> (subst h; exact hs)
  | evMessage src txt now =>
      replace h : doEvMessage s src txt now = s' := by
        have := h; rw [step, Option.some.injEq] at this; exact this
      subst h; exact hs

/- Transcript-clear accounting over all reachable states. -/
lemma inv3_reachable (s : Sys) (h : Reachable s) :
    s.clearCount = s.micCount + s.connects.countP CPhase.isWaitTd := by
  induction h with
  | init => rfl
  | next hr hstep ih => exact inv3_step (inv1_reachable _ hr).1 ih hstep

/- Concrete schedules and states used by the claim theorems below. -/

/- The six successful resume slices of one connect() body. -/
def connSteps : List Act :=
  [.stepConn 0 true, .stepConn 0 true, .stepConn 0 true,
   .stepConn 0 true, .stepConn 0 true, .stepConn 0 true]

/- Mount; connect() minting generation 1; then disconnect() lands while the
connect body is suspended at getUserMedia; the connect body then resumes,
passes both generation checkpoints (the generation never changed again)
and invokes startSession while teardown promise 0 is still pending. -/
def c2Trace : List Act :=
  [.mountE, .callConnect, .stepConn 0 true, .callDisconnect,
   .stepConn 0 true, .stepConn 0 true, .stepConn 0 true, .stepConn 0 true]

/- Mount, one fully successful connect, unmount, delayed timer fires with
no remount in the window. -/
def c3Trace : List Act :=
  [.mountE, .callConnect] ++ connSteps ++ [.evConnect, .unmountE, .timerFire]

/- Mount and connect, with the unmount/remount pair of a development-mode
double-invocation inserted after the k-th resume slice of the connect
body; the remount cancels the delayed cleanup before it can fire. -/
def c4Trace (k : Nat) : List Act :=
  [.mountE, .callConnect] ++ connSteps.take k ++ [.unmountE, .mountE]
    ++ connSteps.drop k

/- Successful connect, user disconnect, teardown settles, disconnect body
resumes, and only then the capability's onDisconnect callback fires. -/
def c7Trace : List Act :=
  [.mountE, .callConnect] ++ connSteps ++
  [.evConnect, .callDisconnect, .settleTd 0 true, .discResume 0,
   .evDisconnect]

/- Successful connect, user disconnect, and the onError callback fires
while teardown promise 0 is still pending. -/
def c8Trace : List Act :=
  [.mountE, .callConnect] ++ connSteps ++
  [.evConnect, .callDisconnect, .evError]

/- State after mounting the component once. -/
def sMounted : Sys := { initSys with mounted := true }

/- State after mounting and the synchronous prefix of one connect(). -/
def sConnecting : Sys :=
  { initSys with mounted := true, isConnecting := true,
                 status := .connecting, clearCount := 1,
                 connects := [CPhase.waitTeardown none] }

/- The state after one mount and one connect prefix is reachable. -/
lemma reach_sConnecting : Reachable sConnecting :=
  Reachable.next
    (Reachable.next Reachable.init
      (show step .mountE initSys = some sMounted by decide))
    (show step .callConnect sMounted = some sConnecting by decide)

/- A state with a stale checkpoint phase, for exercising the bail path. -/
def sStale : Sys :=
  { initSys with isConnecting := true, connects := [CPhase.check4 5] }

/- A state with a stored pending teardown and a suspended connect body. -/
def sBlocked : Sys :=
  { initSys with isConnecting := true,
                 connects := [CPhase.waitTeardown (some 0)],
                 teardownSlot := some 0, tdPending := [0], nextTid := 1 }

/- A connecting state with a pending cleanup timer, for the no-op path. -/
def sNoop : Sys :=
  { initSys with isConnecting := true, cleanupTimer := some 7,
                 status := .connecting }

/-- C1: while isConnecting is true any further call to connect() is a no-op
returning immediately whose only effect is cancelling a pending cleanup
timer — it spawns no new connect body and leaves every other field,
including the count of capability starts, unchanged — and in every
reachable state at most one connect body, hence at most one capability
start, is in flight. -/
theorem connect_overlap_noop_single_inflight (s : Sys) (h : Reachable s) :
    s.connects.length ≤ 1 ∧
      (s.isConnecting = true →
        step .callConnect s = some { s with cleanupTimer := none }) := by
  refine ⟨(inv1_reachable s h).1, fun hc => ?_⟩
  show some (doCallConnect s) = some { s with cleanupTimer := none }
  unfold doCallConnect
  rw [if_pos hc]

/-- Witness for C1 at the concrete reachable state reached by one mount and
one connect prefix: the second connect only cancels the timer. -/
theorem connect_overlap_noop_single_inflight_witness :
    sConnecting.connects.length ≤ 1 ∧
      step .callConnect sConnecting
        = some { sConnecting with cleanupTimer := none } :=
  ⟨(connect_overlap_noop_single_inflight sConnecting reach_sConnecting).1,
   (connect_overlap_noop_single_inflight sConnecting reach_sConnecting).2
     rfl⟩

/-- C2 counterexample: after the schedule of c2Trace the run reaches a state
whose connect body is suspended inside startSession (a capability start in
flight, start count 1) while teardown promise 0 — the termination begun by
the interleaved disconnect() — is still pending: connect() does invoke the
capability start while a previously begun termination is in flight,
refuting the claim as universally stated. -/
theorem start_during_inflight_teardown_cex :
    (run c2Trace initSys).map
        (fun s => (s.connects, s.tdPending, s.startCount))
      = some ([CPhase.startS 1], [0], 1) := by decide

/-
Helper for the amended C2: a connect body whose pinned teardown promise is
still pending cannot take its resume step.
-/
lemma pinned_blocked {s : Sys} {i : Nat} {t : Nat} (ok : Bool)
    (hph : s.connects[i]? = some (CPhase.waitTeardown (some t)))
    (hp : t ∈ s.tdPending) :
    step (.stepConn i ok) s = none := by
  show doStepConn s i ok = none
  simp [doStepConn, hph, hp]

/-- C2 amended: connect() serializes only against the teardown handle
stored in the guard at the moment connect() is invoked: waitForTeardown
pins that handle synchronously at Step A, and a connect body with a pinned
pending handle cannot take its resume step — hence cannot mint a
generation or proceed toward start — until that termination settles; in
particular, when disconnect() sets its handle before connect() is called,
the spawned connect body pins the disconnect's handle and is blocked until
the termination settles.  A termination begun after the pin is not waited
for and start can be invoked while it is in flight, as the counterexample
shows. -/
theorem pinned_teardown_serialization :
    (∀ (s : Sys) (i : Nat) (ok : Bool) (t : Nat),
        s.connects[i]? = some (CPhase.waitTeardown (some t)) →
        t ∈ s.tdPending →
        step (.stepConn i ok) s = none)
    ∧ (∀ s : Sys, s.isConnecting = false → s.connects = [] →
        ∃ s2, run [.callDisconnect, .callConnect] s = some s2
          ∧ s2.connects = [CPhase.waitTeardown (some s.nextTid)]
          ∧ s.nextTid ∈ s2.tdPending
          ∧ ∀ ok : Bool, step (.stepConn 0 ok) s2 = none) := by
  constructor
  · intro s i ok t hph hp
    exact pinned_blocked ok hph hp
  · intro s hic hcn
    have hconn : (doCallConnect (doCallDisconnect s)).connects
        = [CPhase.waitTeardown (some s.nextTid)] := by
      simp [doCallConnect, doCallDisconnect, hic, hcn]
    have hmem : s.nextTid
        ∈ (doCallConnect (doCallDisconnect s)).tdPending := by
      simp [doCallConnect, doCallDisconnect, hic]
    exact ⟨doCallConnect (doCallDisconnect s), rfl, hconn, hmem,
           fun ok => pinned_blocked ok (by rw [hconn]; rfl) hmem⟩

/-- Witness for the amended C2: at a concrete state the pinned body is
blocked, and at the initial state the disconnect-then-connect schedule
pins teardown promise 0 and blocks the connect body until it settles. -/
theorem pinned_teardown_serialization_witness :
    step (.stepConn 0 true) sBlocked = none
    ∧ ∃ s2, run [.callDisconnect, .callConnect] initSys = some s2
        ∧ s2.connects = [CPhase.waitTeardown (some initSys.nextTid)]
        ∧ initSys.nextTid ∈ s2.tdPending
        ∧ ∀ ok : Bool, step (.stepConn 0 ok) s2 = none :=
  ⟨pinned_teardown_serialization.1 sBlocked 0 true 0 (by decide) (by decide),
   pinned_teardown_serialization.2 initSys rfl rfl⟩

/-- C3: the code records the generation at MOUNT time, not at unmount, so
in the connect-then-unmount schedule with no remount within the window the
fired timer compares generation 1 with the mount-time value 0 and never
calls terminate: the run ends with one capability start and zero
terminations, contradicting the claim that terminate is called exactly
once; the hook's own comment says the cleanup fires normally on a real
unmount, so this is a slip in the code. -/
theorem unmount_after_connect_never_terminates :
    (run c3Trace initSys).map
        (fun s => (s.startCount, s.terminateCount, s.generation,
                   s.genAtMount, s.cleanupTimer))
      = some (1, 0, 1, 0, none) := by decide

/-- C4: in every schedule where the unmount/remount pair of a
development-mode double-invocation interrupts a single connect() around
any of its resume slices, all within the cleanup delay window (the timer
never fires before the remount cancels it), terminate is never called and
exactly one capability start occurs; moreover every mount and every
connect() call cancels any pending delayed cleanup timer. -/
theorem remount_within_window_no_terminate :
    (∀ s s' : Sys, step .mountE s = some s' → s'.cleanupTimer = none)
    ∧ (∀ s : Sys, (doCallConnect s).cleanupTimer = none)
    ∧ (∀ k : Fin 7, (run (c4Trace k.val) initSys).map
          (fun s => (s.startCount, s.terminateCount, s.cleanupTimer))
        = some (1, 0, none)) := by
  refine ⟨?_, ?_, by decide⟩
  · intro s s' h
    replace h : doMount s = some s' := h
    unfold doMount at h
    split at h
    · exact absurd h (by simp)
    · rw [Option.some.injEq] at h; subst h; rfl
  · intro s
    unfold doCallConnect
    split <;> rfl

/-- Witness for C4: mounting from a state with a pending cleanup timer
cancels the timer. -/
theorem remount_within_window_no_terminate_witness :
    sMounted.cleanupTimer = none :=
  remount_within_window_no_terminate.1
    { initSys with cleanupTimer := some 3 } sMounted (by decide)

/-- C5: in every reachable state every in-flight connect body past the
mint carries exactly the guard's current generation, so a stale
continuation never exists to mutate anything; and each of the two
generation checkpoints, run from any state in which the body's recorded
generation differs from the current one, aborts silently: status and
transcript are left exactly as they are, isConnecting is reset to false,
and the body is removed. -/
theorem stale_generation_never_mutates :
    (∀ s : Sys, Reachable s →
        ∀ p ∈ s.connects, ∀ g, p.genOf = some g → g = s.generation)
    ∧ (∀ (s : Sys) (i : Nat) (g : Nat) (ok : Bool),
        s.connects[i]? = some (CPhase.check4 g) → s.generation ≠ g →
        step (.stepConn i ok) s
          = some { s with isConnecting := false,
                          connects := s.connects.eraseIdx i })
    ∧ (∀ (s : Sys) (i : Nat) (g : Nat) (ok : Bool),
        s.connects[i]? = some (CPhase.check6 g) → s.generation ≠ g →
        step (.stepConn i ok) s
          = some { s with isConnecting := false,
                          connects := s.connects.eraseIdx i }) := by
  refine ⟨inv2_reachable, ?_, ?_⟩
  · intro s i g ok hph hne
    show doStepConn s i ok = _
    simp [doStepConn, hph, hne, bailStale]
  · intro s i g ok hph hne
    show doStepConn s i ok = _
    simp [doStepConn, hph, hne, bailStale]

/-- Witness for C5: a checkpoint run against a stale recorded generation
(5, current 0) bails silently at a concrete state. -/
theorem stale_generation_never_mutates_witness :
    step (.stepConn 0 true) sStale
      = some { sStale with isConnecting := false,
                           connects := sStale.connects.eraseIdx 0 } :=
  stale_generation_never_mutates.2.1 sStale 0 5 true (by decide) (by decide)

/-- C6: from any state with no disconnect body already in flight, calling
disconnect(), letting the endSession-backed teardown settle — whether it
resolved or threw, the thrown channel-already-closed rejection being
swallowed by the wrapper — and resuming the disconnect body always ends
with status disconnected, with exactly one additional termination
issued. -/
theorem disconnect_always_disconnected (s : Sys) (threw : Bool)
    (hd : s.disconnects = []) :
    (run [.callDisconnect, .settleTd s.nextTid threw, .discResume 0] s).map
        (fun sf => (sf.status, sf.terminateCount))
      = some (.disconnected, s.terminateCount + 1) := by
  simp [run, step, doCallDisconnect, doSettle, doDiscResume, hd,
        List.mem_filter]

/-- Witness for C6 at the initial state with a throwing terminate. -/
theorem disconnect_always_disconnected_witness :
    (run [.callDisconnect, .settleTd initSys.nextTid true, .discResume 0]
        initSys).map (fun sf => (sf.status, sf.terminateCount))
      = some (.disconnected, initSys.terminateCount + 1) :=
  disconnect_always_disconnected initSys true rfl

/-- C7: the onDisconnect callback sets status disconnected exactly when the
user-requested flag is set and otherwise changes nothing at all; in the
scenario connect-succeeds, then disconnect(), then a late onDisconnect,
the status remains disconnected and is not reverted. -/
theorem ondisconnect_requires_user_flag :
    (∀ s : Sys, step .evDisconnect s
        = some (if s.userDisconnected
                then { s with status := .disconnected } else s))
    ∧ (run c7Trace initSys).map Sys.status
        = some ConversationStatus.disconnected := by
  exact ⟨fun _ => rfl, by decide⟩

/-- C8 counterexample: after a successful connect and a disconnect whose
termination is still pending — a teardown sequencing operation in flight,
with isConnecting false — the onError callback sets status to error
instead of suppressing it, refuting the claim as stated. -/
theorem teardown_error_not_suppressed_cex :
    (run c8Trace initSys).map
        (fun s => (s.status, s.tdPending, s.isConnecting))
      = some (.error, [0], false) := by decide

/-- C8 amended: the suppression window is exactly the isConnecting flag of
a connect in flight: onError leaves the state untouched when isConnecting
is true and sets status to error otherwise — teardown-only windows are not
suppressed. -/
theorem error_suppressed_only_when_connecting :
    ∀ s : Sys, step .evError s
      = some (if s.isConnecting then s else { s with status := .error }) :=
  fun _ => rfl

/-- C9: accounting — in every reachable state the number of transcript
resets equals the number of connect attempts that reached Step C (the
microphone request) plus the in-flight attempts that have not yet reached
it, so each attempt reaching Step C cleared the transcript exactly once,
at call time; and step effects — every slice either leaves the transcript
and the reset count unchanged, or is an onMessage event appending exactly
one entry at the tail (preserving all existing entries and their order),
or is the synchronous prefix of a non-overlapping connect() performing
exactly one reset. -/
theorem transcript_discipline :
    (∀ s : Sys, Reachable s →
        s.clearCount = s.micCount + s.connects.countP CPhase.isWaitTd)
    ∧ (∀ (s s' : Sys) (a : Act), step a s = some s' →
        (s'.transcript = s.transcript ∧ s'.clearCount = s.clearCount)
        ∨ (∃ src txt now, a = .evMessage src txt now
            ∧ s'.transcript = s.transcript ++ [mkEntry src txt now]
            ∧ s'.clearCount = s.clearCount)
        ∨ (a = .callConnect ∧ s.isConnecting = false
            ∧ s'.transcript = [] ∧ s'.clearCount = s.clearCount + 1)) := by
  refine ⟨inv3_reachable, ?_⟩
  intro s s' a h
  cases a with
  | mountE =>
      replace h : doMount s = some s' := h
      unfold doMount at h
      split at h
      · exact absurd h (by simp)
      · rw [Option.some.injEq] at h; subst h; exact Or.inl ⟨rfl, rfl⟩
  | unmountE =>
      replace h : doUnmount s = some s' := h
      unfold doUnmount at h
      split at h
      · rw [Option.some.injEq] at h; subst h; exact Or.inl ⟨rfl, rfl⟩
      · exact absurd h (by simp)
  | timerFire =>
      replace h : doTimerFire s = some s' := h
      unfold doTimerFire at h
      split at h
      · exact absurd h (by simp)
      · split at h <;>
          (rw [Option.some.injEq] at h; subst h; exact Or.inl ⟨rfl, rfl⟩)
  | callConnect =>
      replace h : doCallConnect s = s' := by
        have := h; rw [step, Option.some.injEq] at this; exact this
      unfold doCallConnect at h
      split at h <;> subst h
      · exact Or.inl ⟨rfl, rfl⟩
      · rename_i hc
        exact Or.inr (Or.inr ⟨rfl, by simpa using hc, rfl, rfl⟩)
  | stepConn i ok =>
      replace h : doStepConn s i ok = some s' := h
      unfold doStepConn at h
      split at h
      · exact absurd h (by simp)
      · split at h
        · split at h
          · exact absurd h (by simp)
          · rw [Option.some.injEq] at h; subst h; exact Or.inl ⟨rfl, rfl⟩
        · rw [Option.some.injEq] at h; subst h; exact Or.inl ⟨rfl, rfl⟩
      · split at h <;>
          (rw [Option.some.injEq] at h; subst h; exact Or.inl ⟨rfl, rfl⟩)
      · split at h <;>
          (rw [Option.some.injEq] at h; subst h; exact Or.inl ⟨rfl, rfl⟩)
      · split at h <;>
          (rw [Option.some.injEq] at h; subst h; exact Or.inl ⟨rfl, rfl⟩)
      · split at h <;>
          (rw [Option.some.injEq] at h; subst h; exact Or.inl ⟨rfl, rfl⟩)
      · split at h <;>
          (rw [Option.some.injEq] at h; subst h; exact Or.inl ⟨rfl, rfl⟩)
  | callDisconnect =>
      replace h : doCallDisconnect s = s' := by
        have := h; rw [step, Option.some.injEq] at this; exact this
      subst h; exact Or.inl ⟨rfl, rfl⟩
  | settleTd tid threw =>
      replace h : doSettle s tid threw = some s' := h
      unfold doSettle at h
      split at h
      · rw [Option.some.injEq] at h; subst h; exact Or.inl ⟨rfl, rfl⟩
      · exact absurd h (by simp)
  | discResume i =>
      replace h : doDiscResume s i = some s' := h
      unfold doDiscResume at h
      split at h
      · exact absurd h (by simp)
      · split at h
        · exact absurd h (by simp)
        · rw [Option.some.injEq] at h; subst h; exact Or.inl ⟨rfl, rfl⟩
  | evConnect =>
      replace h : doEvConnect s = s' := by
        have := h; rw [step, Option.some.injEq] at this; exact this
      subst h; exact Or.inl ⟨rfl, rfl⟩
  | evDisconnect =>
      replace h : doEvDisconnect s = s' := by
        have := h; rw [step, Option.some.injEq] at this; exact this
      unfold doEvDisconnect at h
      split at h <;> (subst h; exact Or.inl ⟨rfl, rfl⟩)
  | evError =>
      replace h : doEvError s = s' := by
        have := h; rw [step, Option.some.injEq] at this; exact this
      unfold doEvError at h
      split at h <;> (subst h; exact Or.inl ⟨rfl, rfl⟩)
  | evMessage src txt now =>
      replace h : doEvMessage s src txt now = s' := by
        have := h; rw [step, Option.some.injEq] at this; exact this
      subst h
      exact Or.inr (Or.inl ⟨src, txt, now, rfl, rfl, rfl⟩)

/-- Witness for C9: the clear accounting at the concrete reachable state
after one mount and one connect prefix (one reset, zero microphone
requests, one pre-mic body in flight). -/
theorem transcript_discipline_witness :
    sConnecting.clearCount
      = sConnecting.micCount
        + sConnecting.connects.countP CPhase.isWaitTd :=
  transcript_discipline.1 sConnecting reach_sConnecting

/-- C10: the no-op path of connect() taken when isConnecting is true has
exactly one effect — the pending delayed-cleanup timer is cancelled —
while generation, teardown slot, pending teardowns, next teardown id,
status, transcript, user-disconnected flag, mount bookkeeping, connect
and disconnect bodies and all counters are unchanged. -/
theorem connect_noop_cancels_timer_only (s s' : Sys)
    (hc : s.isConnecting = true) (h : step .callConnect s = some s') :
    s'.cleanupTimer = none ∧ s'.generation = s.generation
    ∧ s'.teardownSlot = s.teardownSlot ∧ s'.tdPending = s.tdPending
    ∧ s'.nextTid = s.nextTid ∧ s'.isConnecting = true
    ∧ s'.status = s.status ∧ s'.transcript = s.transcript
    ∧ s'.userDisconnected = s.userDisconnected
    ∧ s'.mounted = s.mounted ∧ s'.genAtMount = s.genAtMount
    ∧ s'.connects = s.connects ∧ s'.disconnects = s.disconnects
    ∧ s'.startCount = s.startCount
    ∧ s'.terminateCount = s.terminateCount
    ∧ s'.clearCount = s.clearCount ∧ s'.micCount = s.micCount := by
  replace h : doCallConnect s = s' := by
    have := h; rw [step, Option.some.injEq] at this; exact this
  unfold doCallConnect at h
  rw [if_pos hc] at h
  subst h
  exact ⟨rfl, rfl, rfl, rfl, rfl, hc, rfl, rfl, rfl, rfl, rfl, rfl, rfl,
         rfl, rfl, rfl, rfl⟩

/-- Witness for C10 at a concrete connecting state with a pending timer. -/
theorem connect_noop_cancels_timer_only_witness :
    ({ sNoop with cleanupTimer := none } : Sys).cleanupTimer = none :=
  (connect_noop_cancels_timer_only sNoop
    { sNoop with cleanupTimer := none } rfl (by decide)).1

end TtsRecipe
